import Mathlib

/-!
Shallow embedding of the palawija PHP version manager (`src/main.rs`) and
proofs about its core logic: the catalog parser of `show_available_versions`,
the activation protocol of `use_php`, the `install_php` short-circuit, and
the exit-code discipline of `main`.

Text is modelled as `List Char`; Rust byte indices coincide with character
indices at every point the code slices (the slice boundaries are the ends of
the ASCII markers `"php-"` and `".tar.gz"`, so the extracted substring is
the same under either indexing).
-/

namespace Palawija

/-- Text of the embedded program: a list of characters. -/
abbrev Str := List Char

/-- Rust `str::find(needle)`: index of the first occurrence of `needle` in the
haystack, `none` when absent.  On an empty needle it returns `some 0`, as in
Rust. -/
def findSub (needle : Str) : Str → Option Nat
  | [] => if needle.isPrefixOf ([] : Str) then some 0 else none
  | c :: t =>
    if needle.isPrefixOf (c :: t) then some 0
    else (findSub needle t).map (· + 1)

/-- Rust `str::contains(needle)`: whether `find` succeeds. -/
def containsSub (needle hay : Str) : Bool :=
  (findSub needle hay).isSome

/-- Split a text at every occurrence of `sep`, keeping empty pieces, as Rust
`str::split(sep)` does (`n` separators yield `n + 1` pieces). -/
def splitOnChar (sep : Char) : Str → List Str
  | [] => [[]]
  | c :: t =>
    if c = sep then [] :: splitOnChar sep t
    else
      match splitOnChar sep t with
      | [] => [[c]]
      | h :: r => (c :: h) :: r

/-- Strip one trailing carriage return, as Rust `str::lines` does to each
piece. -/
def stripCr (l : Str) : Str :=
  if l.getLast? = some '\r' then l.dropLast else l

/-- Rust `str::lines`: split at newlines, drop the final empty piece produced
by a trailing newline, strip a trailing carriage return from each line. -/
def linesOf (s : Str) : List Str :=
  let ps := splitOnChar '\n' s
  (if ps.getLast? = some ([] : Str) then ps.dropLast else ps).map stripCr

/-- Numeric value of a digit string (used only under an all-digits guard). -/
def digitsToNat (l : Str) : Nat :=
  l.foldl (fun a c => a * 10 + (c.toNat - '0'.toNat)) 0

/-- Rust `str::parse::<u32>()`: an optional leading `+`, then one or more
ASCII digits, value at most `u32::MAX`; anything else is an error (`none`). -/
def parseU32 (s : Str) : Option Nat :=
  let ds := match s with
    | '+' :: t => t
    | t => t
  if ds ≠ [] ∧ ds.all (·.isDigit) ∧ digitsToNat ds ≤ 4294967295 then
    some (digitsToNat ds)
  else none

/-- The parsed numeric components of a version string: split at `'.'` and keep
the components that parse as `u32` (the `split('.').filter_map(parse)` of the
sort comparator at src/main.rs:219-220). -/
def versionParts (v : Str) : List Nat :=
  (splitOnChar '.' v).filterMap parseU32

/-- Lexicographic comparison of numeric component lists: Rust's `Ord` for
`Vec<u32>` (element-wise, shorter prefix is less). -/
def compareNatList : List Nat → List Nat → Ordering
  | [], [] => .eq
  | [], _ :: _ => .lt
  | _ :: _, [] => .gt
  | a :: as, b :: bs =>
    match compare a b with
    | .eq => compareNatList as bs
    | o => o

/-- The comparator closure passed to `sort_by` at src/main.rs:218-222:
`b_parts.cmp(&a_parts)`, i.e. descending by numeric components. -/
def versionCompare (a b : Str) : Ordering :=
  compareNatList (versionParts b) (versionParts a)

/-- The ordering relation realised by `sort_by`: `a` may precede `b` exactly
when the comparator does not answer `Greater`. -/
def sortRel (a b : Str) : Prop :=
  versionCompare a b ≠ Ordering.gt

instance : DecidableRel sortRel := fun a b =>
  inferInstanceAs (Decidable (versionCompare a b ≠ Ordering.gt))

/-- One line of the releases page (the loop body at src/main.rs:202-215): the
version candidate pushed for this line, if any.  The candidate is the text
between the end of the first `"php-"` and the next `".tar.gz"` after it, and
must contain a `'.'` and a digit.  (Rust checks `char::is_numeric`; for the
ASCII text of version numbers this is `Char.isDigit`.) -/
def lineVersion (line : Str) : Option Str :=
  if containsSub ("php-".data) line ∧ containsSub (".tar.gz".data) line then
    match findSub ("php-".data) line with
    | none => none
    | some start =>
      let startIdx := start + 4
      match findSub (".tar.gz".data) (line.drop startIdx) with
      | none => none
      | some e =>
        let version := (line.drop startIdx).take e
        if version.contains '.' ∧ version.any (·.isDigit) then some version
        else none
  else none

/-- The raw extraction pass of `show_available_versions` (src/main.rs:199-215):
the version candidates of each line, in line order. -/
def extractVersions (input : Str) : List Str :=
  (linesOf input).filterMap lineVersion

/-- Rust `Vec::dedup`: collapse each run of adjacent equal elements to a
single copy. -/
def dedupAdj {α : Type} [DecidableEq α] : List α → List α
  | [] => []
  | [a] => [a]
  | a :: b :: t => if a = b then dedupAdj (b :: t) else a :: dedupAdj (b :: t)

/-- The catalog pipeline of `show_available_versions` (src/main.rs:199-223):
extract, stable-sort by `versionCompare`, dedup adjacent duplicates.  Rust's
`sort_by` is a stable sort; stable sorts under one comparator agree on every
input, so it is embedded as the stable `List.insertionSort`. -/
def catalogVersions (input : Str) : List Str :=
  dedupAdj (List.insertionSort sortRel (extractVersions input))

/-- The filter string built at src/main.rs:242-246: both branches of the `if`
append a trailing dot to the caller's filter. -/
def filterPat (f : Str) : Str :=
  if f.contains '.' then f ++ ['.'] else f ++ ['.']

/-- The filter predicate of src/main.rs:248-250: `v.starts_with(&prefix)`. -/
def matchesFilter (f v : Str) : Bool :=
  (filterPat f).isPrefixOf v

/-- The filtered catalog displayed by `available` (src/main.rs:248-250). -/
def availableFiltered (input f : Str) : List Str :=
  (catalogVersions input).filter (fun v => matchesFilter f v)

/-- The filesystem state `use_php` touches: the set of existing target paths
(installed binaries and any other link targets), and the symbolic link at
`/usr/local/bin/php` — `some target` when the link is present, `none` when it
is absent. -/
structure UseFs where
  files : List String
  link : Option String
deriving DecidableEq

/-- `Path::exists` on the link path follows the symbolic link: it holds only
when the link is present and its target exists (src/main.rs:592). -/
def linkResolves (fs : UseFs) : Bool :=
  match fs.link with
  | none => false
  | some t => decide (t ∈ fs.files)

/-- The errors `use_php` reports: missing binary (src/main.rs:567), failed
removal of the old link (src/main.rs:597), failed creation of the new link
(src/main.rs:612). -/
inductive UseError where
  | notFound
  | removeFailed
  | createFailed
deriving DecidableEq

/-- Result of one `use_php` run: the reported error, if any, and the
filesystem state at return. -/
structure UseOut where
  error : Option UseError
  fs : UseFs
deriving DecidableEq

/-- The binary path `use_php` resolves (src/main.rs:550-553):
`<HOME>/.palawija/php-<version>/bin/php`. -/
def phpBinPath (home v : String) : String :=
  home ++ "/.palawija/php-" ++ v ++ "/bin/php"

/-- `use_php` (src/main.rs:543-640).  `canRemove` and `canCreate` abstract
the permission outcomes of `fs::remove_file` and `symlink`; the version probe
of the binary (src/main.rs:571-585) only prints and is elided.  `symlink(2)`
fails with `EEXIST` when the link path is still occupied — in particular when
a dangling link was skipped by the `exists()` check — and with a permission
error when `canCreate` is false. -/
def usePhp (fs : UseFs) (home v : String) (canRemove canCreate : Bool) : UseOut :=
  let bin := phpBinPath home v
  if bin ∈ fs.files then
    if linkResolves fs then
      if canRemove then
        let fs1 : UseFs := { fs with link := none }
        if canCreate then { error := none, fs := { fs1 with link := some bin } }
        else { error := some .createFailed, fs := fs1 }
      else { error := some .removeFailed, fs := fs }
    else
      if fs.link.isSome then { error := some .createFailed, fs := fs }
      else if canCreate then { error := none, fs := { fs with link := some bin } }
      else { error := some .createFailed, fs := fs }
  else { error := some .notFound, fs := fs }

/-- The filesystem state `install_php` touches: existing directories and
existing files (the downloaded archive); the extracted source tree is not
modelled, no claim depends on it. -/
structure InstallFs where
  dirs : List String
  files : List String
deriving DecidableEq

/-- `fs::create_dir_all`: a no-op when the directory already exists. -/
def addDir (p : String) (s : InstallFs) : InstallFs :=
  if p ∈ s.dirs then s else { s with dirs := p :: s.dirs }

/-- `fs::remove_file` with its result ignored, as at src/main.rs:449. -/
def removeFile (p : String) (s : InstallFs) : InstallFs :=
  { s with files := s.files.filter (fun q => decide (q ≠ p)) }

/-- The errors `install_php` reports: malformed version (src/main.rs:400),
failed download (src/main.rs:450), failed extraction (src/main.rs:472). -/
inductive InstallError where
  | invalidVersion
  | downloadFailed
  | extractFailed
deriving DecidableEq

/-- Result of one `install_php` run: the reported error, if any, the
filesystem state at return, and whether a download was performed. -/
structure InstallOut where
  error : Option InstallError
  state : InstallFs
  downloaded : Bool
deriving DecidableEq

/-- The version-format guard of src/main.rs:399: contains a dot and a digit.
(Rust checks `char::is_numeric`; on the ASCII text of version strings this is
`Char.isDigit`.) -/
def validVersion (v : String) : Bool :=
  v.data.contains '.' && v.data.any (·.isDigit)

/-- The installation root `<HOME>/.palawija` (src/main.rs:403). -/
def installRoot (home : String) : String := home ++ "/.palawija"

/-- The per-version directory `<root>/php-<version>` (src/main.rs:410). -/
def versionDir (home v : String) : String := installRoot home ++ "/php-" ++ v

/-- The downloaded archive path `<root>/php-<version>.tar.gz`
(src/main.rs:434). -/
def tarballPath (home v : String) : String :=
  installRoot home ++ "/php-" ++ v ++ ".tar.gz"

/-- `install_php` (src/main.rs:395-487): validate the version, ensure the
root directory, short-circuit when the version directory already exists,
otherwise download (curl), create the version directory, extract (tar), and
delete the archive.  `downloadOk` and `extractOk` abstract the child process
statuses; `downloaded` records whether curl was invoked. -/
def installPhp (home v : String) (downloadOk extractOk : Bool) (s : InstallFs) : InstallOut :=
  if validVersion v = false then ⟨some .invalidVersion, s, false⟩
  else
    let s1 := addDir (installRoot home) s
    if versionDir home v ∈ s1.dirs then ⟨none, s1, false⟩
    else
      if downloadOk = false then
        ⟨some .downloadFailed, removeFile (tarballPath home v) s1, true⟩
      else
        let s2 : InstallFs := { s1 with files := tarballPath home v :: s1.files }
        let s3 := addDir (versionDir home v) s2
        if extractOk = false then ⟨some .extractFailed, s3, true⟩
        else ⟨none, removeFile (tarballPath home v) s3, true⟩

/-- One CLI invocation as dispatched by `main` (src/main.rs:88-161): the
chosen subcommand together with the abstract outcome of its handler (the
handlers perform I/O; a Bool records whether the handler returned `Ok`).  For
`Which`, the outcome is whether spawning the `which` probe succeeded; for
`Available`, whether the optional version argument was supplied and whether
the handler returned `Ok`. -/
inductive Cmd where
  | install (ok : Bool)
  | useVersion (ok : Bool)
  | list (ok : Bool)
  | which (spawnOk : Bool)
  | available (hasVersionArg : Bool) (ok : Bool)
deriving DecidableEq

/-- The process exit code of `main` for each dispatch outcome:
`std::process::exit(1)` on the error paths of `Install`, `Use`, `List` and
`Available` (src/main.rs:94,103,111,151,157), implicit 0 otherwise.  The
`Which` arm prints its failure (src/main.rs:137-139) but never exits
non-zero. -/
def mainExitCode : Cmd → Nat
  | .install ok => if ok then 0 else 1
  | .useVersion ok => if ok then 0 else 1
  | .list ok => if ok then 0 else 1
  | .which _ => 0
  | .available hasArg ok => if hasArg = false then 1 else if ok then 0 else 1

/-- Whether the dispatch arm reports a failure (reaches an `eprintln!` error
path) for the given outcome. -/
def reportsFailure : Cmd → Bool
  | .install ok => !ok
  | .useVersion ok => !ok
  | .list ok => !ok
  | .which spawnOk => !spawnOk
  | .available hasArg ok => !hasArg || !ok

/-- Whether the dispatch arm invokes its handler: `Available` exits at the
missing-argument check (src/main.rs:144-152) before calling
`show_available_versions`; every other arm calls its handler. -/
def runsHandler : Cmd → Bool
  | .available hasArg _ => hasArg
  | _ => true

/-- The two `BEq` instances on character lists (the derived decidable one and
the structural one) agree. -/
theorem listCharBeqEq : @instBEqOfDecidableEq (List Char) _ = List.instBEq := by
  refine congrArg BEq.mk ?_
  funext a b
  show decide (a = b) = (a == b)
  by_cases h : a = b
  · simp [h]
  · simp [h, beq_eq_false_iff_ne]

/-- `compareNatList` answers `eq` exactly on equal lists. -/
theorem compareNatList_eq_iff : ∀ x y : List Nat,
    compareNatList x y = Ordering.eq ↔ x = y := by
  intro x
  induction x with
  | nil => intro y; cases y <;> simp [compareNatList]
  | cons a as ih =>
    intro y
    cases y with
    | nil => simp [compareNatList]
    | cons b bs =>
      cases hab : compare a b with
      | lt =>
        have hne : a ≠ b := Nat.ne_of_lt (Nat.compare_eq_lt.mp hab)
        simp [compareNatList, hab, hne]
      | eq =>
        have hb : a = b := Nat.compare_eq_eq.mp hab
        subst hb
        simp [compareNatList, hab, ih]
      | gt =>
        have hne : a ≠ b := (Nat.ne_of_lt (Nat.compare_eq_gt.mp hab)).symm
        simp [compareNatList, hab, hne]

/-- Swapping the arguments of `compareNatList` swaps the answer. -/
theorem compareNatList_swap : ∀ x y : List Nat,
    compareNatList y x = (compareNatList x y).swap := by
  intro x
  induction x with
  | nil => intro y; cases y <;> simp [compareNatList, Ordering.swap]
  | cons a as ih =>
    intro y
    cases y with
    | nil => simp [compareNatList, Ordering.swap]
    | cons b bs =>
      cases hab : compare a b with
      | lt =>
        have hba : compare b a = Ordering.gt := by
          rw [← Nat.compare_swap, hab]; rfl
        simp [compareNatList, hab, hba, Ordering.swap]
      | eq =>
        have hba : compare b a = Ordering.eq := by
          rw [← Nat.compare_swap, hab]; rfl
        simp [compareNatList, hab, hba, ih bs]
      | gt =>
        have hba : compare b a = Ordering.lt := by
          rw [← Nat.compare_swap, hab]; rfl
        simp [compareNatList, hab, hba, Ordering.swap]

/-- Transitivity of the non-strict order induced by `compareNatList`. -/
theorem compareNatList_le_trans : ∀ x y z : List Nat,
    compareNatList x y ≠ Ordering.gt → compareNatList y z ≠ Ordering.gt →
    compareNatList x z ≠ Ordering.gt := by
  intro x
  induction x with
  | nil =>
    intro y z _ _
    cases z <;> simp [compareNatList]
  | cons a as ih =>
    intro y z hxy hyz
    cases y with
    | nil => simp [compareNatList] at hxy
    | cons b bs =>
      cases z with
      | nil => simp [compareNatList] at hyz
      | cons c cs =>
        cases hab : compare a b with
        | gt => simp [compareNatList, hab] at hxy
        | lt =>
          cases hbc : compare b c with
          | gt => simp [compareNatList, hbc] at hyz
          | lt =>
            have hac : a < c :=
              Nat.lt_trans (Nat.compare_eq_lt.mp hab) (Nat.compare_eq_lt.mp hbc)
            simp [compareNatList, Nat.compare_eq_lt.mpr hac]
          | eq =>
            have hac : a < c := Nat.compare_eq_eq.mp hbc ▸ Nat.compare_eq_lt.mp hab
            simp [compareNatList, Nat.compare_eq_lt.mpr hac]
        | eq =>
          have habeq : a = b := Nat.compare_eq_eq.mp hab
          cases hbc : compare b c with
          | gt => simp [compareNatList, hbc] at hyz
          | lt =>
            have hac : a < c := habeq ▸ Nat.compare_eq_lt.mp hbc
            simp [compareNatList, Nat.compare_eq_lt.mpr hac]
          | eq =>
            have hac : compare a c = Ordering.eq :=
              Nat.compare_eq_eq.mpr (habeq.trans (Nat.compare_eq_eq.mp hbc))
            have hxy2 : compareNatList as bs ≠ Ordering.gt := by
              simpa [compareNatList, hab] using hxy
            have hyz2 : compareNatList bs cs ≠ Ordering.gt := by
              simpa [compareNatList, hbc] using hyz
            have htail := ih bs cs hxy2 hyz2
            simp [compareNatList, hac, htail]

instance : IsTrans Str sortRel :=
  ⟨by
    intro a b c hab hbc
    unfold sortRel versionCompare at *
    exact compareNatList_le_trans _ _ _ hbc hab⟩

instance : IsTotal Str sortRel :=
  ⟨by
    intro a b
    unfold sortRel versionCompare
    rcases h : compareNatList (versionParts b) (versionParts a) with _ | _ | _
    · exact Or.inl (by simp [h])
    · exact Or.inl (by simp [h])
    · refine Or.inr ?_
      rw [compareNatList_swap, h]
      simp [Ordering.swap]⟩

/-- `dedupAdj` only erases elements: its result is a sublist of the input. -/
theorem dedupAdj_sublist {α : Type} [DecidableEq α] :
    ∀ l : List α, (dedupAdj l).Sublist l := by
  intro l
  induction l with
  | nil => simp [dedupAdj]
  | cons a t ih =>
    cases t with
    | nil => simp [dedupAdj]
    | cons b r =>
      rw [dedupAdj]
      by_cases h : a = b
      · rw [if_pos h]; exact ih.cons a
      · rw [if_neg h]; exact ih.cons₂ a

/-- `dedupAdj` keeps at least one copy of every element. -/
theorem mem_dedupAdj {α : Type} [DecidableEq α] :
    ∀ (l : List α) (x : α), x ∈ l → x ∈ dedupAdj l := by
  intro l
  induction l with
  | nil => intro x hx; simp at hx
  | cons a t ih =>
    intro x hx
    cases t with
    | nil => simpa [dedupAdj] using hx
    | cons b r =>
      rw [dedupAdj]
      by_cases h : a = b
      · rw [if_pos h]
        apply ih
        rcases List.mem_cons.mp hx with h1 | h1
        · rw [h1, h]; exact List.mem_cons_self b r
        · exact h1
      · rw [if_neg h]
        rcases List.mem_cons.mp hx with h1 | h1
        · rw [h1]; exact List.mem_cons_self a _
        · exact List.mem_cons_of_mem a (ih x h1)

/-- On a list sorted by the comparator in which comparator-equal elements are
equal, `dedupAdj` leaves no duplicates at all. -/
theorem nodup_dedupAdj : ∀ l : List Str, l.Pairwise sortRel →
    l.Pairwise (fun a b => versionParts a = versionParts b → a = b) →
    (dedupAdj l).Nodup := by
  intro l
  induction l with
  | nil => intro _ _; simp [dedupAdj]
  | cons a t ih =>
    intro hs hinj
    cases t with
    | nil => simp [dedupAdj]
    | cons b r =>
      rw [dedupAdj]
      by_cases hab : a = b
      · rw [if_pos hab]
        exact ih hs.of_cons hinj.of_cons
      · rw [if_neg hab]
        rw [List.nodup_cons]
        refine ⟨?_, ih hs.of_cons hinj.of_cons⟩
        intro hmem
        have hmem2 : a ∈ b :: r := (dedupAdj_sublist (b :: r)).subset hmem
        rcases List.mem_cons.mp hmem2 with h1 | h1
        · exact hab h1
        · have hle1 : sortRel a b := List.rel_of_pairwise_cons hs (List.mem_cons_self b r)
          have hle2 : sortRel b a := List.rel_of_pairwise_cons hs.of_cons h1
          unfold sortRel versionCompare at hle1 hle2
          have hsw := compareNatList_swap (versionParts b) (versionParts a)
          have ho : compareNatList (versionParts b) (versionParts a) = Ordering.eq := by
            rcases hcase : compareNatList (versionParts b) (versionParts a) with _ | _ | _
            · rw [hsw, hcase] at hle2
              simp [Ordering.swap] at hle2
            · rfl
            · exact absurd hcase hle1
          have hpeq : versionParts b = versionParts a := (compareNatList_eq_iff _ _).mp ho
          have hinj1 : versionParts a = versionParts b → a = b :=
            List.rel_of_pairwise_cons hinj (List.mem_cons_self b r)
          exact hab (hinj1 hpeq.symm)

/-- Claim C3: the catalog parser's output is sorted descending by
component-wise numeric (major, minor, patch) comparison — every earlier entry
has numeric components at least as large, lexicographically, as every later
entry — and in particular `"8.10.0"` sorts above `"8.9.0"`, which string
comparison would invert. -/
theorem c3_sort_descending :
    (∀ input : Str, (catalogVersions input).Pairwise
      (fun a b => compareNatList (versionParts a) (versionParts b) ≠ Ordering.lt))
    ∧ catalogVersions ("php-8.9.0.tar.gz\nphp-8.10.0.tar.gz".data)
      = ["8.10.0".data, "8.9.0".data] := by
  constructor
  · intro input
    have hs : (List.insertionSort sortRel (extractVersions input)).Pairwise sortRel :=
      List.sorted_insertionSort sortRel (extractVersions input)
    have hp : (catalogVersions input).Pairwise sortRel :=
      List.Pairwise.sublist (dedupAdj_sublist _) hs
    refine hp.imp ?_
    intro a b hab
    unfold sortRel versionCompare at hab
    intro hlt
    rw [compareNatList_swap, hlt] at hab
    simp [Ordering.swap] at hab
  · decide

/-- Claim C4 counterexample: dedup is adjacent-only, and the stable sort does
not make equal strings adjacent when a string with the same numeric components
separates them, so a version extracted twice can survive in the output twice.
The listing yields `"8.1"` twice, yet the output also contains it twice. -/
theorem c4_dedup_counterexample :
    (extractVersions ("php-8.1.tar.gz\nphp-8.1.foo.tar.gz\nphp-8.1.tar.gz".data)).count
      ("8.1".data) = 2
    ∧ (catalogVersions ("php-8.1.tar.gz\nphp-8.1.foo.tar.gz\nphp-8.1.tar.gz".data)).count
      ("8.1".data) = 2 := by
  decide

/-- Claim C4, amended: when any two extracted strings with equal numeric
component lists are equal as strings (as on listings of fully numeric
versions), every version string the extraction rule yields more than once
appears exactly once in the catalog output. -/
theorem c4_dedup_unique (input v : Str)
    (hinj : (extractVersions input).Pairwise
      (fun a b => versionParts a = versionParts b → a = b))
    (hv : v ∈ extractVersions input) :
    (catalogVersions input).count v = 1 := by
  have hperm := List.perm_insertionSort sortRel (extractVersions input)
  have hsymm : ∀ {x y : Str},
      (versionParts x = versionParts y → x = y) →
      (versionParts y = versionParts x → y = x) :=
    fun h he => (h he.symm).symm
  have hinj2 : (List.insertionSort sortRel (extractVersions input)).Pairwise
      (fun a b => versionParts a = versionParts b → a = b) :=
    (List.Perm.pairwise_iff hsymm hperm).mpr hinj
  have hs : (List.insertionSort sortRel (extractVersions input)).Pairwise sortRel :=
    List.sorted_insertionSort sortRel (extractVersions input)
  have hnd : (catalogVersions input).Nodup := nodup_dedupAdj _ hs hinj2
  have hmem : v ∈ catalogVersions input :=
    mem_dedupAdj _ v (hperm.mem_iff.mpr hv)
  have h1 := List.count_eq_one_of_mem hnd hmem
  rwa [listCharBeqEq] at h1

/-- Witness for the amended claim C4 at a concrete listing in which `"8.1.0"`
is extracted twice. -/
theorem c4_dedup_unique_witness :
    (catalogVersions ("php-8.1.0.tar.gz\nphp-8.2.0.tar.gz\nphp-8.1.0.tar.gz".data)).count
      ("8.1.0".data) = 1 :=
  c4_dedup_unique
    ("php-8.1.0.tar.gz\nphp-8.2.0.tar.gz\nphp-8.1.0.tar.gz".data)
    ("8.1.0".data) (by decide) (by decide)

/-- Claim C5: a candidate version passes the `available` filter exactly when
it begins with the caller's filter string followed by a dot; `"8"` matches
`"8.3.0"` but not `"80.0.0"`, and `"8.2"` matches `"8.2.1"` but not
`"8.20.0"`. -/
theorem c5_filter :
    (∀ f v : Str, matchesFilter f v = true ↔ (f ++ ['.']) <+: v)
    ∧ (∀ input f v : Str,
        v ∈ availableFiltered input f ↔ v ∈ catalogVersions input ∧ matchesFilter f v = true)
    ∧ matchesFilter ("8".data) ("8.3.0".data) = true
    ∧ matchesFilter ("8".data) ("80.0.0".data) = false
    ∧ matchesFilter ("8.2".data) ("8.2.1".data) = true
    ∧ matchesFilter ("8.2".data) ("8.20.0".data) = false := by
  refine ⟨?_, ?_, by decide, by decide, by decide, by decide⟩
  · intro f v
    unfold matchesFilter filterPat
    rw [ite_self]
    exact List.isPrefixOf_iff_prefix
  · intro input f v
    unfold availableFiltered
    exact List.mem_filter

/-- Claim C1: every `use` run that succeeds leaves the activation pointer as
a single link to the chosen version's binary; whatever pointer existed before
has been replaced. -/
theorem c1_pointer_unique (fs : UseFs) (home v : String) (cr cc : Bool)
    (h : (usePhp fs home v cr cc).error = none) :
    (usePhp fs home v cr cc).fs.link = some (phpBinPath home v) := by
  simp only [usePhp] at h ⊢
  split_ifs at h ⊢ <;> simp_all

/-- Witness for claim C1: a concrete run that replaces an old pointer. -/
theorem c1_pointer_unique_witness :
    (usePhp ⟨["/h/.palawija/php-8.3.0/bin/php", "/old/php"], some "/old/php"⟩
      "/h" "8.3.0" true true).error = none
    ∧ (usePhp ⟨["/h/.palawija/php-8.3.0/bin/php", "/old/php"], some "/old/php"⟩
      "/h" "8.3.0" true true).fs.link = some (phpBinPath "/h" "8.3.0") :=
  ⟨by decide,
   c1_pointer_unique ⟨["/h/.palawija/php-8.3.0/bin/php", "/old/php"], some "/old/php"⟩
     "/h" "8.3.0" true true (by decide)⟩

/-- Claim C2: when the version's binary is absent, `use` reports an error and
performs no mutation — the returned state, activation pointer included, is
exactly the input state. -/
theorem c2_missing_binary (fs : UseFs) (home v : String) (cr cc : Bool)
    (h : phpBinPath home v ∉ fs.files) :
    (usePhp fs home v cr cc).error = some UseError.notFound
    ∧ (usePhp fs home v cr cc).fs = fs := by
  constructor <;> simp [usePhp, h]

/-- Witness for claim C2: `use` of a version with no binary on an empty
state. -/
theorem c2_missing_binary_witness :
    (usePhp ⟨[], some "/old/php"⟩ "/h" "9.9.9" true true).error = some UseError.notFound
    ∧ (usePhp ⟨[], some "/old/php"⟩ "/h" "9.9.9" true true).fs = ⟨[], some "/old/php"⟩ :=
  c2_missing_binary ⟨[], some "/old/php"⟩ "/h" "9.9.9" true true (by decide)

/-- Claim C6: when a resolvable pointer exists and its removal fails, the
operation stops with the removal error — a value distinct from the creation
error — and the state, pointer included, is untouched, so link creation was
never attempted. -/
theorem c6_remove_failure (fs : UseFs) (home v : String) (cc : Bool)
    (hbin : phpBinPath home v ∈ fs.files) (hlink : linkResolves fs = true) :
    (usePhp fs home v false cc).error = some UseError.removeFailed
    ∧ (usePhp fs home v false cc).fs = fs
    ∧ UseError.removeFailed ≠ UseError.createFailed := by
  refine ⟨?_, ?_, by decide⟩ <;> simp [usePhp, hbin, hlink]

/-- Witness for claim C6: removal of an existing resolvable pointer denied. -/
theorem c6_remove_failure_witness :
    (usePhp ⟨["/h/.palawija/php-8.3.0/bin/php", "/old/php"], some "/old/php"⟩
      "/h" "8.3.0" false true).error = some UseError.removeFailed
    ∧ (usePhp ⟨["/h/.palawija/php-8.3.0/bin/php", "/old/php"], some "/old/php"⟩
      "/h" "8.3.0" false true).fs
      = ⟨["/h/.palawija/php-8.3.0/bin/php", "/old/php"], some "/old/php"⟩
    ∧ UseError.removeFailed ≠ UseError.createFailed :=
  c6_remove_failure ⟨["/h/.palawija/php-8.3.0/bin/php", "/old/php"], some "/old/php"⟩
    "/h" "8.3.0" true (by decide) (by decide)

/-- Claim C10: with a dangling pointer (present link whose target does not
exist), the `exists()` check fails, removal is skipped, and the subsequent
link creation fails, so `use` errors even though the version's binary is
present and compiled. -/
theorem c10_dangling_link (fs : UseFs) (home v t : String) (cr cc : Bool)
    (hlink : fs.link = some t) (ht : t ∉ fs.files)
    (hbin : phpBinPath home v ∈ fs.files) :
    (usePhp fs home v cr cc).error = some UseError.createFailed
    ∧ (usePhp fs home v cr cc).fs = fs := by
  have hres : linkResolves fs = false := by simp [linkResolves, hlink, ht]
  have hsome : fs.link.isSome = true := by simp [hlink]
  constructor <;> simp [usePhp, hbin, hres, hsome]

/-- Witness for claim C10: a dangling pointer at `/usr/local/bin/php` with a
compiled version installed. -/
theorem c10_dangling_link_witness :
    (usePhp ⟨["/h/.palawija/php-8.3.0/bin/php"], some "/gone/php"⟩
      "/h" "8.3.0" true true).error = some UseError.createFailed
    ∧ (usePhp ⟨["/h/.palawija/php-8.3.0/bin/php"], some "/gone/php"⟩
      "/h" "8.3.0" true true).fs
      = ⟨["/h/.palawija/php-8.3.0/bin/php"], some "/gone/php"⟩ :=
  c10_dangling_link ⟨["/h/.palawija/php-8.3.0/bin/php"], some "/gone/php"⟩
    "/h" "8.3.0" "/gone/php" true true (by decide) (by decide) (by decide)

/-- `create_dir_all` makes its directory exist. -/
theorem addDir_mem_self (p : String) (s : InstallFs) : p ∈ (addDir p s).dirs := by
  unfold addDir
  split
  · assumption
  · exact List.mem_cons_self _ _

/-- `create_dir_all` is a no-op on an existing directory. -/
theorem addDir_of_mem {p : String} {s : InstallFs} (h : p ∈ s.dirs) :
    addDir p s = s := by
  simp [addDir, h]

/-- `create_dir_all` preserves existing directories. -/
theorem mem_addDir_of_mem {q p : String} {s : InstallFs} (h : q ∈ s.dirs) :
    q ∈ (addDir p s).dirs := by
  unfold addDir
  split
  · exact h
  · exact List.mem_cons_of_mem _ h

/-- `remove_file` does not change the directories. -/
theorem removeFile_dirs (p : String) (s : InstallFs) :
    (removeFile p s).dirs = s.dirs := rfl

/-- On a state where the root and the version directory already exist,
`install_php` short-circuits: no error, no download, state unchanged. -/
theorem installPhp_short (home v : String) (d e : Bool) (s : InstallFs)
    (hval : validVersion v = true)
    (hroot : installRoot home ∈ s.dirs)
    (hdir : versionDir home v ∈ s.dirs) :
    installPhp home v d e s = ⟨none, s, false⟩ := by
  have h1 : addDir (installRoot home) s = s := addDir_of_mem hroot
  simp [installPhp, hval, h1, hdir]

/-- A successful `install_php` run ends with a valid version string and with
both the root and the version directory present. -/
theorem installPhp_ok (home v : String) (d e : Bool) (s : InstallFs)
    (h : (installPhp home v d e s).error = none) :
    validVersion v = true
    ∧ installRoot home ∈ (installPhp home v d e s).state.dirs
    ∧ versionDir home v ∈ (installPhp home v d e s).state.dirs := by
  by_cases hv : validVersion v = false
  · simp [installPhp, hv] at h
  · have hv1 : validVersion v = true := by
      cases hvv : validVersion v
      · exact absurd hvv hv
      · rfl
    by_cases hd : versionDir home v ∈ (addDir (installRoot home) s).dirs
    · have heq : installPhp home v d e s = ⟨none, addDir (installRoot home) s, false⟩ := by
        simp [installPhp, hv, hd]
      rw [heq]
      exact ⟨hv1, addDir_mem_self _ _, hd⟩
    · by_cases hdl : d = false
      · simp [installPhp, hv, hd, hdl] at h
      · by_cases he : e = false
        · simp [installPhp, hv, hd, hdl, he] at h
        · have heq : installPhp home v d e s
              = ⟨none,
                 removeFile (tarballPath home v)
                   (addDir (versionDir home v)
                     { dirs := (addDir (installRoot home) s).dirs,
                       files := tarballPath home v :: (addDir (installRoot home) s).files }),
                 true⟩ := by
            simp [installPhp, hv, hd, hdl, he]
          rw [heq]
          exact ⟨hv1, mem_addDir_of_mem (addDir_mem_self _ _), addDir_mem_self _ _⟩

/-- Claim C7: `install` is idempotent — after a successful install of a
version, a second `install` of the same version succeeds, performs no
download, and leaves the filesystem state exactly as the first run left
it. -/
theorem c7_install_idempotent (home v : String) (d1 e1 d2 e2 : Bool)
    (s : InstallFs) (h : (installPhp home v d1 e1 s).error = none) :
    installPhp home v d2 e2 (installPhp home v d1 e1 s).state
      = ⟨none, (installPhp home v d1 e1 s).state, false⟩ := by
  obtain ⟨hval, hroot, hdir⟩ := installPhp_ok home v d1 e1 s h
  exact installPhp_short home v d2 e2 _ hval hroot hdir

/-- Witness for claim C7: a concrete first install on an empty state, then a
second run that succeeds with no download and the same state. -/
theorem c7_install_idempotent_witness :
    (installPhp "/h" "8.3.0" true true ⟨[], []⟩).error = none
    ∧ installPhp "/h" "8.3.0" false false (installPhp "/h" "8.3.0" true true ⟨[], []⟩).state
      = ⟨none, (installPhp "/h" "8.3.0" true true ⟨[], []⟩).state, false⟩ :=
  ⟨by decide,
   c7_install_idempotent "/h" "8.3.0" true true false false ⟨[], []⟩ (by decide)⟩

/-- Claim C8 counterexample: the `Which` arm with a failed probe spawn
reports a failure (src/main.rs:137-139) yet the process exits 0, because that
arm never calls `exit(1)`. -/
theorem c8_exit_counterexample :
    reportsFailure (Cmd.which false) = true ∧ mainExitCode (Cmd.which false) = 0 := by
  decide

/-- Claim C8, amended: for every dispatch outcome except the `Which` arm, the
process exits 1 exactly when a failure is reported and 0 otherwise — in
particular exit 1 on download, extraction, missing-binary and symlink
permission failures; the `Which` arm exits 0 even when it reports a
failure. -/
theorem c8_exit_codes (c : Cmd) (h : ∀ s : Bool, c ≠ Cmd.which s) :
    mainExitCode c = if reportsFailure c = true then 1 else 0 := by
  cases c with
  | install ok => cases ok <;> decide
  | useVersion ok => cases ok <;> decide
  | list ok => cases ok <;> decide
  | which s => exact absurd rfl (h s)
  | available hasArg ok => cases hasArg <;> cases ok <;> decide

/-- Witness for the amended claim C8 at a failing install. -/
theorem c8_exit_codes_witness :
    mainExitCode (Cmd.install false)
      = if reportsFailure (Cmd.install false) = true then 1 else 0 :=
  c8_exit_codes (Cmd.install false) (by decide)

/-- Claim C9: `available` without a version argument exits with code 1 and
never reaches `show_available_versions`, whatever the handler outcome would
have been. -/
theorem c9_available_requires_arg (ok : Bool) :
    mainExitCode (Cmd.available false ok) = 1
    ∧ runsHandler (Cmd.available false ok) = false :=
  ⟨rfl, rfl⟩

end Palawija
